import Mathlib

/-
Shallow embedding of src/miot_kit/miot/decoder.py (xiaomi-miloco).
The embedding models MIoTMediaRingBuffer (dual-lane bounded deque with
keyframe-aware eviction), the worker step, and the decode callbacks of
MIoTMediaDecoder.  Python deques with maxlen are modelled as Lists with
explicit bound handling; Python exceptions are modelled with Except.
-/

/-- Frame type enumeration; the source only distinguishes FRAME_I (keyframe)
from everything else, so one non-keyframe constructor suffices. -/
inductive MIoTCameraFrameType where
  | FRAME_I
  | FRAME_P
deriving DecidableEq

/-- Codec identifiers appearing in the source (decoder.py branches on
VIDEO_H264, VIDEO_H265 and AUDIO_OPUS). -/
inductive MIoTCameraCodec where
  | VIDEO_H264
  | VIDEO_H265
  | AUDIO_OPUS
deriving DecidableEq

/-- One encoded media unit, mirroring MIoTCameraFrameData. -/
structure MIoTCameraFrameData where
  frame_type : MIoTCameraFrameType
  codec_id : MIoTCameraCodec
  data : List Nat
  timestamp : Int
  channel : Nat
deriving DecidableEq

/-- Python exceptions that the modelled code can raise. -/
inductive PyError where
  | attributeError
  | indexError
  | decodeError
deriving DecidableEq

/-- State of MIoTMediaRingBuffer.  cond_deleted models the effect of
stop(), which executes del self._cond: any later operation entering
with self._cond raises AttributeError. -/
structure MIoTMediaRingBuffer where
  maxlen : Nat
  video_buffer : List MIoTCameraFrameData
  audio_buffer : List MIoTCameraFrameData
  cond_deleted : Bool
deriving DecidableEq

/-- MIoTMediaRingBuffer.__init__ (default maxlen is 20 at call sites). -/
def mkRingBuffer (maxlen : Nat) : MIoTMediaRingBuffer :=
  ⟨maxlen, [], [], false⟩

/-- The for-loop in put_video: scan indices from the left (oldest first),
delete the first entry whose frame_type is not FRAME_I.  Returns none when
no entry was removed (removed = False in the source). -/
def removeFirstNonKey : List MIoTCameraFrameData → Option (List MIoTCameraFrameData)
  | [] => none
  | f :: rest =>
    if f.frame_type != MIoTCameraFrameType.FRAME_I then
      some rest
    else
      match removeFirstNonKey rest with
      | some rest1 => some (f :: rest1)
      | none => none

/-- MIoTMediaRingBuffer.put_video.  When the lane is full, a keyframe
evicts the first non-keyframe (or, failing that, pops the oldest entry);
a non-keyframe is silently discarded.  popleft on an empty deque raises
IndexError (only reachable when maxlen = 0). -/
def put_video (b : MIoTMediaRingBuffer) (item : MIoTCameraFrameData) :
    Except PyError MIoTMediaRingBuffer :=
  if b.cond_deleted then
    Except.error PyError.attributeError
  else if b.video_buffer.length ≥ b.maxlen then
    if item.frame_type = MIoTCameraFrameType.FRAME_I then
      match removeFirstNonKey b.video_buffer with
      | some buf => Except.ok { b with video_buffer := buf ++ [item] }
      | none =>
        match b.video_buffer with
        | [] => Except.error PyError.indexError
        | _ :: rest => Except.ok { b with video_buffer := rest ++ [item] }
    else
      Except.ok b
  else
    Except.ok { b with video_buffer := b.video_buffer ++ [item] }

/-- Appending to a Python deque with maxlen: a full deque silently drops
its oldest element; a deque with maxlen = 0 stays empty. -/
def dequeAppend (maxlen : Nat) (l : List MIoTCameraFrameData)
    (x : MIoTCameraFrameData) : List MIoTCameraFrameData :=
  if maxlen = 0 then []
  else if l.length ≥ maxlen then l.tail ++ [x]
  else l ++ [x]

/-- MIoTMediaRingBuffer.put_audio: unconditional deque append. -/
def put_audio (b : MIoTMediaRingBuffer) (item : MIoTCameraFrameData) :
    Except PyError MIoTMediaRingBuffer :=
  if b.cond_deleted then
    Except.error PyError.attributeError
  else
    Except.ok { b with audio_buffer := dequeAppend b.maxlen b.audio_buffer item }

/-- Outcome of one MIoTMediaRingBuffer.step call: which handler was
invoked with which frame, or the timed-out idle wait. -/
inductive StepResult where
  | videoFrame (f : MIoTCameraFrameData)
  | audioFrame (f : MIoTCameraFrameData)
  | noData
deriving DecidableEq

/-- MIoTMediaRingBuffer.step: pop the video front when available, else the
audio front, else wait up to the timeout and handle nothing. -/
def step (b : MIoTMediaRingBuffer) :
    Except PyError (MIoTMediaRingBuffer × StepResult) :=
  if b.cond_deleted then
    Except.error PyError.attributeError
  else
    match b.video_buffer with
    | f :: rest =>
      Except.ok ({ b with video_buffer := rest }, StepResult.videoFrame f)
    | [] =>
      match b.audio_buffer with
      | f :: rest =>
        Except.ok ({ b with audio_buffer := rest }, StepResult.audioFrame f)
      | [] => Except.ok (b, StepResult.noData)

/-- MIoTMediaRingBuffer.stop: deletes the condition and clears both lanes. -/
def stop (b : MIoTMediaRingBuffer) : MIoTMediaRingBuffer :=
  { b with cond_deleted := true, video_buffer := [], audio_buffer := [] }

/-- A producer-side push, as issued by push_video_frame / push_audio_frame. -/
inductive BufferOp where
  | pushVideo (f : MIoTCameraFrameData)
  | pushAudio (f : MIoTCameraFrameData)
deriving DecidableEq

/-- Apply one push; an exception leaves the buffer unchanged (it propagates
to the producer without mutating lane contents). -/
def applyOp (b : MIoTMediaRingBuffer) (op : BufferOp) : MIoTMediaRingBuffer :=
  match op with
  | BufferOp.pushVideo f =>
    match put_video b f with
    | Except.ok b1 => b1
    | Except.error _ => b
  | BufferOp.pushAudio f =>
    match put_audio b f with
    | Except.ok b1 => b1
    | Except.error _ => b

/-- Apply a sequence of pushes in order. -/
def applyOps (b : MIoTMediaRingBuffer) (l : List BufferOp) : MIoTMediaRingBuffer :=
  l.foldl applyOp b

/-- A non-keyframe test record used in concrete scenarios. -/
def frameP (ts : Int) : MIoTCameraFrameData :=
  ⟨MIoTCameraFrameType.FRAME_P, MIoTCameraCodec.VIDEO_H264, [], ts, 0⟩

/-- A keyframe test record used in concrete scenarios. -/
def frameI (ts : Int) : MIoTCameraFrameData :=
  ⟨MIoTCameraFrameType.FRAME_I, MIoTCameraCodec.VIDEO_H264, [], ts, 0⟩

/-- C5: pushing a non-keyframe onto a full video lane leaves the buffer
completely unchanged, the record is discarded, and no error is raised. -/
theorem put_video_nonkey_full_unchanged (b : MIoTMediaRingBuffer)
    (item : MIoTCameraFrameData)
    (hRun : b.cond_deleted = false)
    (hFull : b.video_buffer.length ≥ b.maxlen)
    (hNonKey : item.frame_type ≠ MIoTCameraFrameType.FRAME_I) :
    put_video b item = Except.ok b := by
  simp [put_video, hRun, hFull, hNonKey]

/-- Witness for C5 at a concrete full buffer. -/
theorem put_video_nonkey_full_unchanged_witness :
    put_video ⟨2, [ frameP 0, frameP 1], [], false⟩ (frameP 2) =
      Except.ok ⟨2, [ frameP 0, frameP 1], [], false⟩ :=
  put_video_nonkey_full_unchanged ⟨2, [ frameP 0, frameP 1], [], false⟩
    (frameP 2) rfl (by decide) (by decide)

/-- C3: step pops the video front when the video lane is non-empty; only
when the video lane is empty does it pop the audio front; when both lanes
are empty it handles nothing and reports no data rather than an error. -/
theorem step_video_priority (b : MIoTMediaRingBuffer)
    (hRun : b.cond_deleted = false) :
    (∀ f rest, b.video_buffer = f :: rest →
      step b = Except.ok ({ b with video_buffer := rest }, StepResult.videoFrame f)) ∧
    (b.video_buffer = [] → ∀ f rest, b.audio_buffer = f :: rest →
      step b = Except.ok ({ b with audio_buffer := rest }, StepResult.audioFrame f)) ∧
    (b.video_buffer = [] → b.audio_buffer = [] →
      step b = Except.ok (b, StepResult.noData)) := by
  refine ⟨?_, ?_, ?_⟩
  · intro f rest hv
    simp [step, hRun, hv]
  · intro hv f rest ha
    simp [step, hRun, hv, ha]
  · intro hv ha
    simp [step, hRun, hv, ha]

/-- Witness for C3: both lanes non-empty, the video front is taken. -/
theorem step_video_priority_witness :
    step ⟨20, [ frameP 3], [ frameP 7], false⟩ =
      Except.ok (⟨20, [], [ frameP 7], false⟩, StepResult.videoFrame (frameP 3)) :=
  (step_video_priority ⟨20, [ frameP 3], [ frameP 7], false⟩ rfl).1
    (frameP 3) [] rfl

/-- C7 counterexample: after stop, put_video raises AttributeError (the
condition variable was deleted), contradicting the claim that subsequent
puts are error-free no-ops. -/
theorem put_video_after_stop_raises :
    put_video (stop (mkRingBuffer 20)) (frameP 0) =
      Except.error PyError.attributeError := rfl

/-- C7 amended: after stop, put_video and put_audio each raise
AttributeError (so the lanes are not touched), and both lanes of the
stopped buffer are empty. -/
theorem put_after_stop_raises_and_lanes_empty (b : MIoTMediaRingBuffer)
    (f : MIoTCameraFrameData) :
    put_video (stop b) f = Except.error PyError.attributeError ∧
    put_audio (stop b) f = Except.error PyError.attributeError ∧
    (stop b).video_buffer = [] ∧ (stop b).audio_buffer = [] := by
  refine ⟨?_, ?_, rfl, rfl⟩
  · simp [put_video, stop]
  · simp [ put_audio, stop]

/-- Decomposition of a successful scan: the removed entry is the first
non-keyframe, everything before it is a keyframe. -/
theorem removeFirstNonKey_eq_some (l m : List MIoTCameraFrameData)
    (h : removeFirstNonKey l = some m) :
    ∃ pre x post, l = pre ++ x :: post ∧ m = pre ++ post ∧
      x.frame_type ≠ MIoTCameraFrameType.FRAME_I ∧
      (∀ y ∈ pre, y.frame_type = MIoTCameraFrameType.FRAME_I) := by
  induction l generalizing m with
  | nil => simp [removeFirstNonKey] at h
  | cons f rest ih =>
    by_cases hf : f.frame_type = MIoTCameraFrameType.FRAME_I
    · rcases hrec : removeFirstNonKey rest with _ | rest1
      · simp [removeFirstNonKey, hf, hrec] at h
      · simp only [removeFirstNonKey, hf] at h
        simp only [bne_self_eq_false, Bool.false_eq_true, if_false, hrec] at h
        obtain ⟨pre, x, post, hl, hm, hx, hpre⟩ := ih rest1 hrec
        refine ⟨f :: pre, x, post, by simp [hl], ?_, hx, ?_⟩
        · simpa [hm] using h.symm
        · intro y hy
          rcases List.mem_cons.mp hy with hy | hy
          · exact hy ▸ hf
          · exact hpre y hy
    · simp only [removeFirstNonKey, bne_iff_ne, ne_eq, hf, not_false_eq_true,
        if_true, Option.some.injEq] at h
      exact ⟨[], f, rest, rfl, by simp [h.symm], hf, by simp⟩

/-- A failed scan means every entry is a keyframe. -/
theorem removeFirstNonKey_eq_none (l : List MIoTCameraFrameData)
    (h : removeFirstNonKey l = none) :
    ∀ f ∈ l, f.frame_type = MIoTCameraFrameType.FRAME_I := by
  induction l with
  | nil => simp
  | cons f rest ih =>
    intro g hg
    by_cases hf : f.frame_type = MIoTCameraFrameType.FRAME_I
    · rcases hrec : removeFirstNonKey rest with _ | rest1
      · rcases List.mem_cons.mp hg with hg | hg
        · exact hg ▸ hf
        · exact ih hrec g hg
      · simp [removeFirstNonKey, hf, hrec] at h
    · simp [removeFirstNonKey, hf] at h

/-- A successful scan exists whenever some entry is a non-keyframe. -/
theorem removeFirstNonKey_isSome (l : List MIoTCameraFrameData)
    (h : ∃ f ∈ l, f.frame_type ≠ MIoTCameraFrameType.FRAME_I) :
    ∃ m, removeFirstNonKey l = some m := by
  rcases hrec : removeFirstNonKey l with _ | m
  · obtain ⟨f, hfl, hf⟩ := h
    exact absurd (removeFirstNonKey_eq_none l hrec f hfl) hf
  · exact ⟨m, rfl⟩

/-- C1: on a full video lane, a pushed keyframe evicts exactly the first
(oldest-indexed) non-keyframe when one exists — so a keyframe is never
removed while a non-keyframe candidate exists — and the keyframe is
appended; when the lane is entirely keyframes, the oldest entry is dropped
instead; in both cases the lane length stays at capacity. -/
theorem put_video_keyframe_eviction (b : MIoTMediaRingBuffer)
    (item : MIoTCameraFrameData)
    (hRun : b.cond_deleted = false)
    (hFull : b.video_buffer.length = b.maxlen)
    (hPos : 0 < b.maxlen)
    (hKey : item.frame_type = MIoTCameraFrameType.FRAME_I) :
    ((∃ f ∈ b.video_buffer, f.frame_type ≠ MIoTCameraFrameType.FRAME_I) →
      ∃ pre x post, b.video_buffer = pre ++ x :: post ∧
        x.frame_type ≠ MIoTCameraFrameType.FRAME_I ∧
        (∀ y ∈ pre, y.frame_type = MIoTCameraFrameType.FRAME_I) ∧
        put_video b item =
          Except.ok { b with video_buffer := (pre ++ post) ++ [item] } ∧
        ((pre ++ post) ++ [item]).length = b.maxlen) ∧
    ((∀ f ∈ b.video_buffer, f.frame_type = MIoTCameraFrameType.FRAME_I) →
      ∃ old rest, b.video_buffer = old :: rest ∧
        put_video b item = Except.ok { b with video_buffer := rest ++ [item] } ∧
        (rest ++ [item]).length = b.maxlen) := by
  have hFull' : b.video_buffer.length ≥ b.maxlen := le_of_eq hFull.symm
  constructor
  · intro hex
    obtain ⟨m, hm⟩ := removeFirstNonKey_isSome b.video_buffer hex
    obtain ⟨pre, x, post, hl, hmeq, hx, hpre⟩ :=
      removeFirstNonKey_eq_some b.video_buffer m hm
    refine ⟨pre, x, post, hl, hx, hpre, ?_, ?_⟩
    · simp [put_video, hRun, hFull', hKey, hm, hmeq]
    · have : b.video_buffer.length = pre.length + post.length + 1 := by
        simp [hl]; omega
      simp only [List.length_append, List.length_singleton]
      omega
  · intro hall
    rcases hv : b.video_buffer with _ | ⟨old, rest⟩
    · rw [hv] at hFull
      simp at hFull
      omega
    · have hnone : removeFirstNonKey b.video_buffer = none := by
        rcases hrec : removeFirstNonKey b.video_buffer with _ | m
        · rfl
        · obtain ⟨pre, x, post, hleq, hmeq, hx, hpre⟩ :=
            removeFirstNonKey_eq_some b.video_buffer m hrec
          have hxm : x ∈ b.video_buffer := by
            rw [hleq]
            exact List.mem_append_right _ (List.mem_cons_self _ _)
          exact absurd (hall x hxm) hx
      rw [hv] at hnone
      have hge : b.maxlen ≤ (old :: rest).length := by
        rw [← hv]
        exact hFull'
      have hge' : b.maxlen ≤ rest.length + 1 := by simpa using hge
      refine ⟨old, rest, rfl, ?_, ?_⟩
      · simp [put_video, hRun, hge', hKey, hv, hnone]
      · have : b.video_buffer.length = rest.length + 1 := by simp [hv]
        simp only [List.length_append, List.length_singleton]
        omega

/-- Witness for C1: a full lane of capacity 3 holding keyframe, non-key,
non-key; pushing a keyframe evicts the entry at index 1. -/
theorem put_video_keyframe_eviction_witness :
    ((∃ f ∈ [ frameI 0, frameP 1, frameP 2],
        f.frame_type ≠ MIoTCameraFrameType.FRAME_I) →
      ∃ pre x post, [ frameI 0, frameP 1, frameP 2] = pre ++ x :: post ∧
        x.frame_type ≠ MIoTCameraFrameType.FRAME_I ∧
        (∀ y ∈ pre, y.frame_type = MIoTCameraFrameType.FRAME_I) ∧
        put_video ⟨3, [ frameI 0, frameP 1, frameP 2], [], false⟩ (frameI 9) =
          Except.ok { (⟨3, [ frameI 0, frameP 1, frameP 2], [], false⟩ :
              MIoTMediaRingBuffer) with video_buffer := (pre ++ post) ++ [ frameI 9] } ∧
        ((pre ++ post) ++ [ frameI 9]).length = 3) ∧
    ((∀ f ∈ [ frameI 0, frameP 1, frameP 2],
        f.frame_type = MIoTCameraFrameType.FRAME_I) →
      ∃ old rest, [ frameI 0, frameP 1, frameP 2] = old :: rest ∧
        put_video ⟨3, [ frameI 0, frameP 1, frameP 2], [], false⟩ (frameI 9) =
          Except.ok { (⟨3, [ frameI 0, frameP 1, frameP 2], [], false⟩ :
              MIoTMediaRingBuffer) with video_buffer := rest ++ [ frameI 9] } ∧
        (rest ++ [ frameI 9]).length = 3) :=
  put_video_keyframe_eviction ⟨3, [ frameI 0, frameP 1, frameP 2], [], false⟩
    (frameI 9) rfl (by decide) (by decide) (by decide)

/-- A successful scan shortens the lane by exactly one entry. -/
theorem removeFirstNonKey_length (l m : List MIoTCameraFrameData)
    (h : removeFirstNonKey l = some m) : m.length + 1 = l.length := by
  obtain ⟨pre, x, post, hl, hm, -, -⟩ := removeFirstNonKey_eq_some l m h
  subst hl hm
  simp
  omega

/-- If put_video succeeds, capacity and the audio lane are untouched and
the video lane stays within capacity whenever it was within capacity. -/
theorem put_video_ok_spec (b : MIoTMediaRingBuffer) (item : MIoTCameraFrameData)
    (b1 : MIoTMediaRingBuffer) (h : put_video b item = Except.ok b1) :
    b1.maxlen = b.maxlen ∧ b1.audio_buffer = b.audio_buffer ∧
    (b.video_buffer.length ≤ b.maxlen → b1.video_buffer.length ≤ b.maxlen) := by
  unfold put_video at h
  by_cases hc : b.cond_deleted
  · simp [hc] at h
  · simp only [hc, Bool.false_eq_true, if_false] at h
    by_cases hfull : b.video_buffer.length ≥ b.maxlen
    · rw [if_pos hfull] at h
      by_cases hkey : item.frame_type = MIoTCameraFrameType.FRAME_I
      · rw [if_pos hkey] at h
        rcases hrem : removeFirstNonKey b.video_buffer with _ | m
        · rw [hrem] at h
          rcases hb : b.video_buffer with _ | ⟨old, rest⟩
          · rw [hb] at h
            simp at h
          · rw [hb] at h
            simp only [Except.ok.injEq] at h
            subst h
            refine ⟨rfl, rfl, ?_⟩
            intro hle
            simp only [List.length_cons] at hle
            simp only [List.length_append, List.length_singleton]
            omega
        · rw [hrem] at h
          simp only [Except.ok.injEq] at h
          subst h
          have hlen := removeFirstNonKey_length b.video_buffer m hrem
          refine ⟨rfl, rfl, ?_⟩
          intro hle
          simp only [List.length_append, List.length_singleton]
          omega
      · rw [if_neg hkey] at h
        simp only [Except.ok.injEq] at h
        subst h
        exact ⟨rfl, rfl, fun hle => hle⟩
    · rw [if_neg hfull] at h
      simp only [Except.ok.injEq] at h
      subst h
      refine ⟨rfl, rfl, ?_⟩
      intro hle
      simp only [List.length_append, List.length_singleton]
      omega

/-- If put_audio succeeds, capacity and the video lane are untouched and
the audio lane stays within capacity whenever it was within capacity. -/
theorem put_audio_ok_spec (b : MIoTMediaRingBuffer) (item : MIoTCameraFrameData)
    (b1 : MIoTMediaRingBuffer) (h : put_audio b item = Except.ok b1) :
    b1.maxlen = b.maxlen ∧ b1.video_buffer = b.video_buffer ∧
    (b.audio_buffer.length ≤ b.maxlen → b1.audio_buffer.length ≤ b.maxlen) := by
  unfold put_audio at h
  by_cases hc : b.cond_deleted
  · simp [hc] at h
  · simp only [hc, Bool.false_eq_true, if_false, Except.ok.injEq] at h
    subst h
    refine ⟨rfl, rfl, ?_⟩
    intro hle
    unfold dequeAppend
    by_cases h0 : b.maxlen = 0
    · simp [h0]
    · rw [if_neg h0]
      by_cases hfull : b.audio_buffer.length ≥ b.maxlen
      · rw [if_pos hfull]
        rcases hb : b.audio_buffer with _ | ⟨old, rest⟩
        · rw [hb] at hfull
          simp at hfull
          omega
        · have hlen : b.audio_buffer.length = rest.length + 1 := by simp [hb]
          simp only [hb, List.tail_cons, List.length_append, List.length_singleton]
          omega
      · rw [if_neg hfull]
        simp only [List.length_append, List.length_singleton]
        omega

/-- One push preserves the capacity field and keeps both lane lengths
within capacity. -/
theorem applyOp_preserves (b : MIoTMediaRingBuffer) (op : BufferOp)
    (hv : b.video_buffer.length ≤ b.maxlen)
    (ha : b.audio_buffer.length ≤ b.maxlen) :
    (applyOp b op).maxlen = b.maxlen ∧
    (applyOp b op).video_buffer.length ≤ b.maxlen ∧
    (applyOp b op).audio_buffer.length ≤ b.maxlen := by
  rcases op with f | f
  · rcases hp : put_video b f with e | b1
    · simp only [applyOp, hp]
      exact ⟨trivial, hv, ha⟩
    · obtain ⟨hm, hab, hlen⟩ := put_video_ok_spec b f b1 hp
      simp only [applyOp, hp]
      exact ⟨hm, hlen hv, hab ▸ ha⟩
  · rcases hp : put_audio b f with e | b1
    · simp only [applyOp, hp]
      exact ⟨trivial, hv, ha⟩
    · obtain ⟨hm, hvb, hlen⟩ := put_audio_ok_spec b f b1 hp
      simp only [applyOp, hp]
      exact ⟨hm, hvb ▸ hv, hlen ha⟩

/-- A push sequence preserves the capacity field and the lane bounds. -/
theorem applyOps_preserves (l : List BufferOp) (b : MIoTMediaRingBuffer)
    (hv : b.video_buffer.length ≤ b.maxlen)
    (ha : b.audio_buffer.length ≤ b.maxlen) :
    (applyOps b l).maxlen = b.maxlen ∧
    (applyOps b l).video_buffer.length ≤ b.maxlen ∧
    (applyOps b l).audio_buffer.length ≤ b.maxlen := by
  induction l generalizing b with
  | nil => exact ⟨rfl, hv, ha⟩
  | cons op rest ih =>
    obtain ⟨hm1, hv1, ha1⟩ := applyOp_preserves b op hv ha
    have := ih (applyOp b op) (hm1 ▸ hv1) (hm1 ▸ ha1)
    simpa [applyOps, hm1] using this

/-- C2: starting from a fresh buffer of capacity N, after any sequence of
video and audio pushes both lane lengths are at most N (every prefix of a
push sequence is itself a push sequence, so the bound holds at every
point in time). -/
theorem buffer_lanes_bounded (N : Nat) (l : List BufferOp) :
    (applyOps (mkRingBuffer N) l).video_buffer.length ≤ N ∧
    (applyOps (mkRingBuffer N) l).audio_buffer.length ≤ N := by
  have h := applyOps_preserves l (mkRingBuffer N) (by simp [mkRingBuffer])
    (by simp [mkRingBuffer])
  exact ⟨h.2.1, h.2.2⟩

/-- The 25 non-keyframe records of Scenario A, timestamps 0..24. -/
def scenarioAFrames : List MIoTCameraFrameData :=
  (List.range 25).map (fun i => frameP (Int.ofNat i))

/-- The final video lane of Scenario A. -/
def scenarioAFinal : MIoTMediaRingBuffer :=
  applyOps (mkRingBuffer 20) (scenarioAFrames.map BufferOp.pushVideo)

/-- C6 counterexample: pushing 25 non-keyframes into a fresh capacity-20
buffer keeps the lane at length 20, but the lane retains the OLDEST 20
records: the most recently pushed record (timestamp 24) is absent and the
first record (timestamp 0) is still present, refuting the claim that the
most recently pushed 20 records are kept with the oldest 5 discarded. -/
theorem scenarioA_counterexample :
    scenarioAFinal.video_buffer.length = 20 ∧
    frameP 24 ∉ scenarioAFinal.video_buffer ∧
    frameP 0 ∈ scenarioAFinal.video_buffer := by
  refine ⟨by decide, by decide, by decide⟩

/-- C6 amended: pushing 25 non-keyframes into a fresh capacity-20 buffer
leaves the lane with exactly the FIRST-pushed 20 records in push order
(the newest 5 were discarded on arrival); the keyframe eviction rule was
never involved since every record is a non-keyframe. -/
theorem scenarioA_keeps_oldest :
    scenarioAFinal.video_buffer = scenarioAFrames.take 20 := by decide

/-- Worker-local decoder state of MIoTMediaDecoder: the lazily bound
video and audio decoder handles (recorded by bound codec), the resampler,
the configured frame interval and the last JPEG emission timestamp. -/
structure DecoderState where
  frame_interval : Int
  video_decoder : Option MIoTCameraCodec
  audio_decoder : Option MIoTCameraCodec
  resampler_bound : Bool
  last_jpeg_ts : Int
deriving DecidableEq

/-- Decoder state right after __init__ (decoders unbound, last ts 0). -/
def mkDecoderState (frame_interval : Int) : DecoderState :=
  ⟨frame_interval, none, none, false, 0⟩

/-- External inputs of one _on_video_callback invocation: the dequeued
record, the wall clock reading int(time.time()*1000), whether
Packet/decode succeed, the decoded frame handles, and whether the
reformat/JPEG/schedule block succeeds. -/
structure VideoTickInput where
  frame : MIoTCameraFrameData
  now_ts : Int
  decode_ok : Bool
  decoded : List Nat
  convert_ok : Bool
deriving DecidableEq

/-- The lazy decoder binding at the top of _on_video_callback: bind on the
first record whose codec is H264 or H265, otherwise leave unbound; never
rebind once bound. -/
def bindVideoDecoder (s : DecoderState) (codec : MIoTCameraCodec) : DecoderState :=
  if s.video_decoder.isNone then
    if codec = MIoTCameraCodec.VIDEO_H264 then
      { s with video_decoder := some MIoTCameraCodec.VIDEO_H264 }
    else if codec = MIoTCameraCodec.VIDEO_H265 then
      { s with video_decoder := some MIoTCameraCodec.VIDEO_H265 }
    else s
  else s

/-- MIoTMediaDecoder._on_video_callback.  An error output carries the
decoder state at the moment the exception is raised (Python mutations
before the raise persist).  The Bool reports whether a JPEG payload was
scheduled onto the main loop. -/
def on_video_callback (s : DecoderState) (inp : VideoTickInput) :
    Except (PyError × DecoderState) (DecoderState × Bool) :=
  let s1 := bindVideoDecoder s inp.frame.codec_id
  match s1.video_decoder with
  | none => Except.error (PyError.attributeError, s1)
  | some _ =>
    if inp.decode_ok then
      if inp.now_ts - s1.last_jpeg_ts ≥ s1.frame_interval then
        match inp.decoded with
        | [] => Except.ok ({ s1 with last_jpeg_ts := inp.now_ts }, false)
        | _ :: _ =>
          if inp.convert_ok then
            Except.ok ({ s1 with last_jpeg_ts := inp.now_ts }, true)
          else
            Except.ok (s1, false)
      else
        Except.ok (s1, false)
    else
      Except.error (PyError.decodeError, s1)

/-- One decoded audio frame, abstracted to the byte buffers the resampler
produces for it (one per resampled frame). -/
structure AudioFrameData where
  resampled : List (List Nat)
deriving DecidableEq

/-- External inputs of one _on_audio_callback invocation. -/
structure AudioTickInput where
  frame : MIoTCameraFrameData
  decode_ok : Bool
  decoded : List AudioFrameData
deriving DecidableEq

/-- The nested loop of _on_audio_callback: pcm_bytes starts empty and each
resampled buffer of each decoded frame is appended in order. -/
def audioPcmBytes (frames : List AudioFrameData) : List Nat :=
  frames.foldl (fun acc f => f.resampled.foldl (fun a rs => a ++ rs) acc) []

/-- One callback scheduled onto the main loop via call_soon_threadsafe. -/
structure ScheduledCall where
  payload : List Nat
  timestamp : Int
  channel : Nat
deriving DecidableEq

/-- MIoTMediaDecoder._on_audio_callback: lazily bind the opus decoder and
the resampler, decode, resample, concatenate, and schedule the audio
callback unconditionally (no rate gating). -/
def on_audio_callback (s : DecoderState) (inp : AudioTickInput) :
    Except (PyError × DecoderState) (DecoderState × List ScheduledCall) :=
  let s1 :=
    if s.audio_decoder.isNone then
      let s2 :=
        if inp.frame.codec_id = MIoTCameraCodec.AUDIO_OPUS then
          { s with audio_decoder := some MIoTCameraCodec.AUDIO_OPUS }
        else s
      { s2 with resampler_bound := true }
    else s
  match s1.audio_decoder with
  | none => Except.error (PyError.attributeError, s1)
  | some _ =>
    if inp.decode_ok then
      Except.ok
        (s1, [⟨audioPcmBytes inp.decoded, inp.frame.timestamp, inp.frame.channel⟩])
    else
      Except.error (PyError.decodeError, s1)

/-- A trace of the video handling path: process successive video records;
an exception is caught by the run loop, which keeps the state reached at
the raise and continues.  Returns the final state and the now_ts values of
the ticks at which a payload was actually forwarded. -/
def processVideoTicks (s : DecoderState) : List VideoTickInput → DecoderState × List Int
  | [] => (s, [])
  | inp :: rest =>
    match on_video_callback s inp with
    | Except.error (_, s1) => processVideoTicks s1 rest
    | Except.ok (s1, emitted) =>
      let pr := processVideoTicks s1 rest
      (pr.1, if emitted then inp.now_ts :: pr.2 else pr.2)

/-- External inputs of one run-loop iteration (whichever handler runs). -/
structure WorkerExtInput where
  now_ts : Int
  video_decode_ok : Bool
  video_decoded : List Nat
  convert_ok : Bool
  audio_decode_ok : Bool
  audio_decoded : List AudioFrameData
deriving DecidableEq

/-- State of the MIoTMediaDecoder worker visible to one run iteration. -/
structure WorkerState where
  queue : MIoTMediaRingBuffer
  dec : DecoderState
  loop_closed : Bool
deriving DecidableEq

/-- One iteration of MIoTMediaDecoder.run: call step, dispatch to the
video or audio handler; any exception is caught and logged, and the loop
breaks only when the main event loop is closed.  The Bool reports whether
the loop proceeds to the next iteration. -/
def runIteration (w : WorkerState) (ext : WorkerExtInput) : WorkerState × Bool :=
  match step w.queue with
  | Except.error _ => (w, !w.loop_closed)
  | Except.ok (q1, res) =>
    let w1 := { w with queue := q1 }
    match res with
    | StepResult.noData => (w1, true)
    | StepResult.videoFrame f =>
      match on_video_callback w1.dec
          ⟨f, ext.now_ts, ext.video_decode_ok, ext.video_decoded, ext.convert_ok⟩ with
      | Except.error (_, d) => ({ w1 with dec := d }, !w1.loop_closed)
      | Except.ok (d, _) => ({ w1 with dec := d }, true)
    | StepResult.audioFrame f =>
      match on_audio_callback w1.dec
          ⟨f, ext.audio_decode_ok, ext.audio_decoded⟩ with
      | Except.error (_, d) => ({ w1 with dec := d }, !w1.loop_closed)
      | Except.ok (d, _) => ({ w1 with dec := d }, true)

/-- Lazy binding never touches the rate-gate fields. -/
theorem bindVideoDecoder_fields (s : DecoderState) (c : MIoTCameraCodec) :
    (bindVideoDecoder s c).frame_interval = s.frame_interval ∧
    (bindVideoDecoder s c).last_jpeg_ts = s.last_jpeg_ts := by
  unfold bindVideoDecoder
  split
  · split
    · exact ⟨rfl, rfl⟩
    · split
      · exact ⟨rfl, rfl⟩
      · exact ⟨rfl, rfl⟩
  · exact ⟨rfl, rfl⟩

/-- A raising video tick keeps the rate-gate fields of the state it
carries. -/
theorem on_video_callback_error_fields (s : DecoderState) (inp : VideoTickInput)
    (e : PyError) (s1 : DecoderState)
    (h : on_video_callback s inp = Except.error (e, s1)) :
    s1.frame_interval = s.frame_interval ∧ s1.last_jpeg_ts = s.last_jpeg_ts := by
  obtain ⟨hfi, hlt⟩ := bindVideoDecoder_fields s inp.frame.codec_id
  simp only [on_video_callback] at h
  split at h
  · simp only [Except.error.injEq, Prod.mk.injEq] at h
    rw [← h.2]
    exact ⟨hfi, hlt⟩
  · split at h
    · split at h
      · split at h
        · simp at h
        · split at h
          · simp at h
          · simp at h
      · simp at h
    · simp only [Except.error.injEq, Prod.mk.injEq] at h
      rw [← h.2]
      exact ⟨hfi, hlt⟩

/-- A completing video tick preserves the configured interval, and either
leaves the last emission timestamp unchanged without forwarding, or
advances it to now with the gate satisfied at the pre-tick timestamp. -/
theorem on_video_callback_ok_cases (s : DecoderState) (inp : VideoTickInput)
    (s1 : DecoderState) (em : Bool)
    (h : on_video_callback s inp = Except.ok (s1, em)) :
    s1.frame_interval = s.frame_interval ∧
    ((s1.last_jpeg_ts = s.last_jpeg_ts ∧ em = false) ∨
     (s1.last_jpeg_ts = inp.now_ts ∧
      s.last_jpeg_ts + s.frame_interval ≤ inp.now_ts)) := by
  obtain ⟨hfi, hlt⟩ := bindVideoDecoder_fields s inp.frame.codec_id
  simp only [on_video_callback] at h
  split at h
  · simp at h
  · split at h
    · split at h
      next hgate =>
        rw [hfi, hlt] at hgate
        split at h
        · simp only [Except.ok.injEq, Prod.mk.injEq] at h
          rw [← h.1]
          exact ⟨hfi, Or.inr ⟨rfl, by omega⟩⟩
        · split at h
          · simp only [Except.ok.injEq, Prod.mk.injEq] at h
            rw [← h.1]
            exact ⟨hfi, Or.inr ⟨rfl, by omega⟩⟩
          · simp only [Except.ok.injEq, Prod.mk.injEq] at h
            rw [← h.1, ← h.2]
            exact ⟨hfi, Or.inl ⟨hlt, rfl⟩⟩
      next hgate =>
        simp only [Except.ok.injEq, Prod.mk.injEq] at h
        rw [← h.1, ← h.2]
        exact ⟨hfi, Or.inl ⟨hlt, rfl⟩⟩
    · simp at h

/-- Concrete decoder state for the conversion-failure scenario: interval
10ms, decoder bound, last emission at 0. -/
def ds8 : DecoderState :=
  ⟨10, some MIoTCameraCodec.VIDEO_H264, none, false, 0⟩

/-- Conversion-failure tick: wall clock 100, decode yields one frame, the
JPEG conversion block raises. -/
def vin8 : VideoTickInput :=
  ⟨ frameP 0, 100, true, [1], false⟩

/-- C8 counterexample: at an emission tick (gate satisfied, 100 - 0 ≥ 10)
where decode yields a frame but the conversion block fails,
last_jpeg_ts is NOT advanced (it stays 0 instead of becoming 100),
refuting the claim that decode/conversion outcome never prevents the
advance. -/
theorem video_convert_failure_no_advance :
    vin8.now_ts - ds8.last_jpeg_ts ≥ ds8.frame_interval ∧
    on_video_callback ds8 vin8 = Except.ok (ds8, false) ∧
    ds8.last_jpeg_ts ≠ vin8.now_ts := by
  refine ⟨by decide, by rfl, by decide⟩

/-- C8 amended: at an emission tick, last_jpeg_ts is advanced to now both
when decode yields zero frames and when a frame is converted and
forwarded; but when the conversion block raises, the advance does NOT
happen and nothing is forwarded. -/
theorem video_gate_advance (s : DecoderState) (inp : VideoTickInput)
    (s1 : DecoderState) (em : Bool)
    (h : on_video_callback s inp = Except.ok (s1, em))
    (hgate : inp.now_ts - s.last_jpeg_ts ≥ s.frame_interval) :
    (inp.decoded = [] → s1.last_jpeg_ts = inp.now_ts ∧ em = false) ∧
    (inp.decoded ≠ [] → inp.convert_ok = true →
      s1.last_jpeg_ts = inp.now_ts ∧ em = true) ∧
    (inp.decoded ≠ [] → inp.convert_ok = false →
      s1.last_jpeg_ts = s.last_jpeg_ts ∧ em = false) := by
  obtain ⟨hfi, hlt⟩ := bindVideoDecoder_fields s inp.frame.codec_id
  simp only [on_video_callback] at h
  split at h
  · simp at h
  · split at h
    · split at h
      next hg =>
        split at h
        next hd =>
          simp only [Except.ok.injEq, Prod.mk.injEq] at h
          refine ⟨fun _ => ⟨by rw [← h.1], h.2.symm⟩,
            fun hne => absurd hd hne, fun hne _ => absurd hd hne⟩
        next x xs hd =>
          split at h
          next hcv =>
            simp only [Except.ok.injEq, Prod.mk.injEq] at h
            refine ⟨fun he => by simp [hd] at he,
              fun _ _ => ⟨by rw [← h.1], h.2.symm⟩,
              fun _ hc => by simp [hcv] at hc⟩
          next hcv =>
            simp only [Bool.not_eq_true] at hcv
            simp only [Except.ok.injEq, Prod.mk.injEq] at h
            refine ⟨fun he => by simp [hd] at he,
              fun _ hc => by simp [hcv] at hc,
              fun _ _ => ⟨by rw [← h.1]; exact hlt, h.2.symm⟩⟩
      next hg =>
        rw [hfi, hlt] at hg
        omega
    · simp at h

/-- Witness for C8 amended at a zero-frame emission tick: interval 10,
last 0, now 100, decode yields no frames. -/
theorem video_gate_advance_witness :
    ((⟨ frameP 0, 100, true, [], true⟩ : VideoTickInput).decoded = [] →
      (⟨10, some MIoTCameraCodec.VIDEO_H264, none, false, 100⟩ :
        DecoderState).last_jpeg_ts =
        (⟨ frameP 0, 100, true, [], true⟩ : VideoTickInput).now_ts ∧
        false = false) ∧
    ((⟨ frameP 0, 100, true, [], true⟩ : VideoTickInput).decoded ≠ [] →
      (⟨ frameP 0, 100, true, [], true⟩ : VideoTickInput).convert_ok = true →
      (⟨10, some MIoTCameraCodec.VIDEO_H264, none, false, 100⟩ :
        DecoderState).last_jpeg_ts =
        (⟨ frameP 0, 100, true, [], true⟩ : VideoTickInput).now_ts ∧
        false = true) ∧
    ((⟨ frameP 0, 100, true, [], true⟩ : VideoTickInput).decoded ≠ [] →
      (⟨ frameP 0, 100, true, [], true⟩ : VideoTickInput).convert_ok = false →
      (⟨10, some MIoTCameraCodec.VIDEO_H264, none, false, 100⟩ :
        DecoderState).last_jpeg_ts =
        (⟨10, some MIoTCameraCodec.VIDEO_H264, none, false, 0⟩ :
          DecoderState).last_jpeg_ts ∧
        false = false) :=
  video_gate_advance ⟨10, some MIoTCameraCodec.VIDEO_H264, none, false, 0⟩
    ⟨ frameP 0, 100, true, [], true⟩
    ⟨10, some MIoTCameraCodec.VIDEO_H264, none, false, 100⟩ false
    (by rfl) (by decide)

/-- Left fold of list concatenation flattens into the accumulator. -/
theorem foldl_append_eq (ls : List (List Nat)) (a : List Nat) :
    ls.foldl (fun x y => x ++ y) a = a ++ ls.flatten := by
  induction ls generalizing a with
  | nil => simp
  | cons hd tl ih => simp [ih, List.append_assoc]

/-- The pcm_bytes accumulation loop equals the concatenation of every
resampled buffer of every decoded frame, in order. -/
theorem audioPcmBytes_eq_flatten (frames : List AudioFrameData) :
    audioPcmBytes frames =
      (frames.map (fun f => f.resampled.flatten)).flatten := by
  suffices h : ∀ acc : List Nat,
      frames.foldl (fun a f => f.resampled.foldl (fun x y => x ++ y) a) acc =
        acc ++ (frames.map (fun f => f.resampled.flatten)).flatten by
    simpa [audioPcmBytes] using h []
  induction frames with
  | nil => intro acc; simp
  | cons hd tl ih =>
    intro acc
    calc (hd :: tl).foldl (fun a f => f.resampled.foldl (fun x y => x ++ y) a) acc
        = tl.foldl (fun a f => f.resampled.foldl (fun x y => x ++ y) a)
            (acc ++ hd.resampled.flatten) := by
          rw [List.foldl_cons, foldl_append_eq]
      _ = (acc ++ hd.resampled.flatten) ++
            (tl.map (fun f => f.resampled.flatten)).flatten := ih _
      _ = acc ++ ((hd :: tl).map (fun f => f.resampled.flatten)).flatten := by
          simp [List.append_assoc]

/-- C9: whenever an audio record is handled with a usable decoder (already
bound, or bindable because the record carries the opus codec) and decode
succeeds, the audio callback is scheduled exactly once, with the
concatenation of all resampled PCM buffers of that packet's decode — an
empty byte payload when decode yields zero frames — for any state of the
rate gate (the audio path never consults frame_interval or last_jpeg_ts,
so no throttling is applied). -/
theorem audio_callback_schedules_once (s : DecoderState) (inp : AudioTickInput)
    (hdec : inp.decode_ok = true)
    (hbind : s.audio_decoder.isSome = true ∨
      inp.frame.codec_id = MIoTCameraCodec.AUDIO_OPUS) :
    ∃ s1, on_audio_callback s inp =
      Except.ok (s1,
        [⟨audioPcmBytes inp.decoded, inp.frame.timestamp, inp.frame.channel⟩]) ∧
    audioPcmBytes inp.decoded =
      (inp.decoded.map (fun f => f.resampled.flatten)).flatten ∧
    (inp.decoded = [] → audioPcmBytes inp.decoded = []) := by
  rcases ha : s.audio_decoder with _ | c
  · rcases hbind with hb | hb
    · rw [ha] at hb
      simp at hb
    · refine ⟨{ { s with audio_decoder := some MIoTCameraCodec.AUDIO_OPUS }
          with resampler_bound := true }, ?_, audioPcmBytes_eq_flatten inp.decoded,
          fun he => by simp [he, audioPcmBytes]⟩
      simp [on_audio_callback, ha, hb, hdec]
  · refine ⟨s, ?_, audioPcmBytes_eq_flatten inp.decoded,
      fun he => by simp [he, audioPcmBytes]⟩
    simp [on_audio_callback, ha, hdec]

/-- Witness for C9: opus record, decoder unbound, two decoded frames with
two resampled buffers each. -/
theorem audio_callback_schedules_once_witness :
    ∃ s1, on_audio_callback (mkDecoderState 1000)
        ⟨⟨MIoTCameraFrameType.FRAME_P, MIoTCameraCodec.AUDIO_OPUS, [], 5, 1⟩,
          true, [⟨[[1, 2], [3]]⟩, ⟨[[4]]⟩]⟩ =
      Except.ok (s1,
        [⟨audioPcmBytes [⟨[[1, 2], [3]]⟩, ⟨[[4]]⟩], 5, 1⟩]) ∧
    audioPcmBytes [⟨[[1, 2], [3]]⟩, ⟨[[4]]⟩] =
      ([⟨[[1, 2], [3]]⟩, ⟨[[4]]⟩].map
        (fun f : AudioFrameData => f.resampled.flatten)).flatten ∧
    ([⟨[[1, 2], [3]]⟩, ⟨[[4]]⟩] = ([] : List AudioFrameData) →
      audioPcmBytes [⟨[[1, 2], [3]]⟩, ⟨[[4]]⟩] = []) :=
  audio_callback_schedules_once (mkDecoderState 1000)
    ⟨⟨MIoTCameraFrameType.FRAME_P, MIoTCameraCodec.AUDIO_OPUS, [], 5, 1⟩,
      true, [⟨[[1, 2], [3]]⟩, ⟨[[4]]⟩]⟩ rfl (Or.inr rfl)

/-- C10: when the first video record carries a codec that is neither H264
nor H265, no decoder is bound and handling raises (decode is attempted on
the unbound handle); the run loop catches the exception and keeps
iterating while the main loop is open; the decoder stays unbound, and a
later record with a supported codec still binds it. -/
theorem unsupported_codec_recoverable (w : WorkerState) (ext : WorkerExtInput)
    (f : MIoTCameraFrameData) (rest : List MIoTCameraFrameData)
    (hq : w.queue.video_buffer = f :: rest)
    (hrun : w.queue.cond_deleted = false)
    (h264 : f.codec_id ≠ MIoTCameraCodec.VIDEO_H264)
    (h265 : f.codec_id ≠ MIoTCameraCodec.VIDEO_H265)
    (hdec : w.dec.video_decoder = none)
    (hloop : w.loop_closed = false) :
    on_video_callback w.dec
        ⟨f, ext.now_ts, ext.video_decode_ok, ext.video_decoded, ext.convert_ok⟩ =
      Except.error (PyError.attributeError, w.dec) ∧
    (runIteration w ext).2 = true ∧
    (runIteration w ext).1.dec.video_decoder = none ∧
    (runIteration w ext).1.queue.video_buffer = rest ∧
    (∀ g : MIoTCameraFrameData, g.codec_id = MIoTCameraCodec.VIDEO_H264 →
      (bindVideoDecoder (runIteration w ext).1.dec g.codec_id).video_decoder =
        some MIoTCameraCodec.VIDEO_H264) := by
  have herr : on_video_callback w.dec
      ⟨f, ext.now_ts, ext.video_decode_ok, ext.video_decoded, ext.convert_ok⟩ =
      Except.error (PyError.attributeError, w.dec) := by
    simp [on_video_callback, bindVideoDecoder, hdec, h264, h265]
  have hrw : runIteration w ext =
      (⟨{ w.queue with video_buffer := rest }, w.dec, w.loop_closed⟩,
        !w.loop_closed) := by
    simp [runIteration, step, hrun, hq, herr]
  refine ⟨herr, ?_, ?_, ?_, ?_⟩
  · rw [hrw, hloop]
    rfl
  · rw [hrw]
    exact hdec
  · rw [hrw]
  · intro g hg
    rw [hrw]
    simp [bindVideoDecoder, hdec, hg]

/-- An audio-codec record sitting in the video lane for the C10 witness. -/
def frameO : MIoTCameraFrameData :=
  ⟨MIoTCameraFrameType.FRAME_P, MIoTCameraCodec.AUDIO_OPUS, [], 0, 0⟩

/-- Witness for C10 at a concrete worker whose first video record carries
the opus codec. -/
theorem unsupported_codec_recoverable_witness :
    on_video_callback (mkDecoderState 1000)
        ⟨ frameO, 0, true, [], true⟩ =
      Except.error (PyError.attributeError, mkDecoderState 1000) ∧
    (runIteration ⟨⟨20, [ frameO], [], false⟩, mkDecoderState 1000, false⟩
        ⟨0, true, [], true, true, []⟩).2 = true ∧
    (runIteration ⟨⟨20, [ frameO], [], false⟩, mkDecoderState 1000, false⟩
        ⟨0, true, [], true, true, []⟩).1.dec.video_decoder = none ∧
    (runIteration ⟨⟨20, [ frameO], [], false⟩, mkDecoderState 1000, false⟩
        ⟨0, true, [], true, true, []⟩).1.queue.video_buffer = [] ∧
    (∀ g : MIoTCameraFrameData, g.codec_id = MIoTCameraCodec.VIDEO_H264 →
      (bindVideoDecoder (runIteration
          ⟨⟨20, [ frameO], [], false⟩, mkDecoderState 1000, false⟩
          ⟨0, true, [], true, true, []⟩).1.dec g.codec_id).video_decoder =
        some MIoTCameraCodec.VIDEO_H264) :=
  unsupported_codec_recoverable
    ⟨⟨20, [ frameO], [], false⟩, mkDecoderState 1000, false⟩
    ⟨0, true, [], true, true, []⟩ frameO [] rfl rfl
    (by decide) (by decide) rfl rfl

/-- Invariant of the video handling trace: with a monotone wall clock that
never reads below the initial last emission timestamp, the last emission
timestamp never decreases, the configured interval is preserved, every
forwarded tick lies at least one interval after the initial timestamp,
and consecutive forwarded ticks are at least one interval apart. -/
theorem processVideoTicks_spec (l : List VideoTickInput) (s : DecoderState)
    (hmono : List.Pairwise (fun a b => a ≤ b) (l.map VideoTickInput.now_ts))
    (hlast : ∀ inp ∈ l, s.last_jpeg_ts ≤ inp.now_ts) :
    s.last_jpeg_ts ≤ (processVideoTicks s l).1.last_jpeg_ts ∧
    (processVideoTicks s l).1.frame_interval = s.frame_interval ∧
    (∀ e ∈ (processVideoTicks s l).2, s.last_jpeg_ts + s.frame_interval ≤ e) ∧
    List.Chain' (fun a b => a + s.frame_interval ≤ b) (processVideoTicks s l).2 := by
  induction l generalizing s with
  | nil => simp [processVideoTicks]
  | cons inp rest ih =>
    rw [List.map_cons] at hmono
    obtain ⟨hhead, htail⟩ := List.pairwise_cons.mp hmono
    have hlast_inp : s.last_jpeg_ts ≤ inp.now_ts := hlast inp (by simp)
    cases hcall : on_video_callback s inp with
    | error pr =>
      obtain ⟨e, s1⟩ := pr
      obtain ⟨hfi, hlt⟩ := on_video_callback_error_fields s inp e s1 hcall
      have hlast1 : ∀ i ∈ rest, s1.last_jpeg_ts ≤ i.now_ts := by
        intro i hi
        rw [hlt]
        exact hlast i (by simp [hi])
      have ihr := ih s1 htail hlast1
      rw [hfi, hlt] at ihr
      simp only [processVideoTicks, hcall]
      exact ihr
    | ok pr =>
      obtain ⟨s1, em⟩ := pr
      obtain ⟨hfi, hcases⟩ := on_video_callback_ok_cases s inp s1 em hcall
      have hs1le : s.last_jpeg_ts ≤ s1.last_jpeg_ts := by
        rcases hcases with ⟨heq, -⟩ | ⟨heq, -⟩
        · rw [heq]
        · rw [heq]
          exact hlast_inp
      have hs1now : ∀ i ∈ rest, s1.last_jpeg_ts ≤ i.now_ts := by
        intro i hi
        rcases hcases with ⟨heq, -⟩ | ⟨heq, -⟩
        · rw [heq]
          exact hlast i (by simp [hi])
        · rw [heq]
          exact hhead i.now_ts (List.mem_map_of_mem _ hi)
      have ihr := ih s1 htail hs1now
      rw [hfi] at ihr
      cases em with
      | false =>
        simp only [processVideoTicks, hcall, if_neg Bool.false_ne_true]
        refine ⟨le_trans hs1le ihr.1, ihr.2.1, ?_, ihr.2.2.2⟩
        intro e he
        have hb := ihr.2.2.1 e he
        omega
      | true =>
        rcases hcases with ⟨-, hemf⟩ | ⟨heq, hgate⟩
        · simp at hemf
        · simp only [processVideoTicks, hcall, if_pos rfl]
          refine ⟨le_trans hs1le ihr.1, ihr.2.1, ?_, ?_⟩
          · intro e he
            rcases List.mem_cons.mp he with rfl | he1
            · exact hgate
            · have hb := ihr.2.2.1 e he1
              omega
          · rcases hes : (processVideoTicks s1 rest).2 with _ | ⟨e1, es⟩
            · simp
            · rw [hes] at ihr
              have hb := ihr.2.2.1 e1 (List.mem_cons_self e1 es)
              rw [heq] at hb
              exact List.Chain'.cons hb ihr.2.2.2

/-- C4: along any video handling trace whose wall-clock readings are
non-decreasing and start no earlier than the initial last emission
timestamp, any two consecutive successful payload forwards are at least
frame_interval milliseconds apart, no matter how many records decode in
between. -/
theorem video_emissions_spaced (s : DecoderState) (l : List VideoTickInput)
    (hmono : List.Pairwise (fun a b => a ≤ b) (l.map VideoTickInput.now_ts))
    (hlast : ∀ inp ∈ l, s.last_jpeg_ts ≤ inp.now_ts) :
    List.Chain' (fun a b => a + s.frame_interval ≤ b)
      (processVideoTicks s l).2 :=
  (processVideoTicks_spec l s hmono hlast).2.2.2

/-- Witness for C4: interval 1000ms, four decodable ticks at 100, 1000,
1100 and 2500ms; payloads go out at 1000 and 2500 only, 1500ms apart. -/
theorem video_emissions_spaced_witness :
    List.Chain' (fun a b => a + (mkDecoderState 1000).frame_interval ≤ b)
      (processVideoTicks (mkDecoderState 1000)
        [⟨ frameP 0, 100, true, [1], true⟩,
         ⟨ frameP 1, 1000, true, [1], true⟩,
         ⟨ frameP 2, 1100, true, [1], true⟩,
         ⟨ frameP 3, 2500, true, [1], true⟩]).2 :=
  video_emissions_spaced (mkDecoderState 1000)
    [⟨ frameP 0, 100, true, [1], true⟩,
     ⟨ frameP 1, 1000, true, [1], true⟩,
     ⟨ frameP 2, 1100, true, [1], true⟩,
     ⟨ frameP 3, 2500, true, [1], true⟩]
    (by decide) (by decide)
